import Mathlib

/-!
Verification of `create_issues.py`, a one-shot tool that parses `ISSUES.md`
into issue records and publishes them through the GitHub CLI.

The parser is embedded by faithfully modelling the five `re.search` calls of
`parse_issues_file` as character-list scanners with Python's backtracking
semantics specialised to each pattern shape:

* `Issue #\d+:\s*(.+)` and `\*\*Labels:\*\*\s*(.+)` (no DOTALL): the literal
  part, then greedy `\s*` with backtracking into the whitespace run, then a
  greedy `(.+)` that cannot cross a newline (`tailLineCapture`).
* `\*\*Description:\*\*\s*(.+?)(?=...)`, `\*\*Acceptance Criteria:\*\*...`,
  `\*\*Files to Modify:\*\*...` (DOTALL, lazy): the literal, then greedy
  `\s*` tried from the longest whitespace run downwards (`wsBacktrack`),
  then the shortest `(.+?)` of length at least one whose end position
  satisfies the lookahead (`lazyLen`).

Whitespace, digits and text are ASCII here, matching the documents the tool
consumes; `\s` is modelled by the ASCII whitespace characters Python uses.
Python's `KeyError` on `issue['body'] +=` when `body` was never set is
modelled by `Except.error`.  Side-effecting code (`create_labels`,
`create_issues_with_cli`, `main`) is modelled by explicit traces of
`Act`s, with remote call outcomes supplied by an oracle.
-/

-- The ASCII characters matched by Python's `\s` and stripped by `str.strip()`.
def isPySpace (c : Char) : Bool :=
  c = ' ' || c = '\t' || c = '\n' || c = '\r' || c = '\x0B' || c = '\x0C'

-- Python `str.strip()` on a character list.
def pyStrip (s : List Char) : List Char :=
  ((s.dropWhile isPySpace).reverse.dropWhile isPySpace).reverse

-- Python's substring test `p in s`.
def hasSub (p : List Char) : List Char → Bool
  | [] => p.isEmpty
  | s@(_ :: tl) => List.isPrefixOf p s || hasSub p tl

-- `\s*(.+)` (no DOTALL) after a matched literal: greedy `\s*` backtracking
-- into the whitespace run until greedy `(.+)` (which cannot cross a newline)
-- can take at least one character.
def tailLineCapture (rest : List Char) : Option (List Char) :=
  let q := rest.dropWhile isPySpace
  if q.isEmpty then
    match rest.reverse.dropWhile (fun c => c = '\n') with
    | [] => none
    | c :: _ => some [c]
  else
    some (q.takeWhile (fun c => !(c = '\n')))

-- The literal part `Issue #\d+:` of the title pattern, anchored at `s`;
-- returns the remainder after the colon.  Only the maximal digit run can be
-- followed by `:`, so the regex backtracking collapses to this test.
def issueTitleAt (s : List Char) : Option (List Char) :=
  if List.isPrefixOf "Issue #".toList s then
    let rest := s.drop 7
    let ds := rest.takeWhile Char.isDigit
    if ds.isEmpty then none
    else
      match rest.drop ds.length with
      | ':' :: rest2 => some rest2
      | _ => none
  else none

-- `re.search(r'Issue #\d+:\s*(.+)', block)`: earliest start position wins.
def searchTitle : List Char → Option (List Char)
  | [] => none
  | s@(_ :: tl) =>
    match issueTitleAt s with
    | some rest =>
      match tailLineCapture rest with
      | some cap => some cap
      | none => searchTitle tl
    | none => searchTitle tl

-- `re.search(lit + r'\s*(.+)', block)` for a fixed literal `lit`.
def searchLine (lit : List Char) : List Char → Option (List Char)
  | [] => none
  | s@(_ :: tl) =>
    if List.isPrefixOf lit s then
      match tailLineCapture (s.drop lit.length) with
      | some cap => some cap
      | none => searchLine lit tl
    else searchLine lit tl

-- Lazy `(.+?)(?=TERM)` with DOTALL at `s`: the smallest length of at least
-- one such that the lookahead `isTerm` holds at the position after it.
def lazyLen (isTerm : List Char → Bool) : List Char → Option Nat
  | [] => none
  | _ :: tl => if isTerm tl then some 1 else (lazyLen isTerm tl).map (· + 1)

-- Greedy `\s*` before the lazy group: try consuming `m` whitespace
-- characters, from the full run length downwards.
def wsBacktrack (isTerm : List Char → Bool) (rest : List Char) : Nat → Option (List Char)
  | 0 =>
    match lazyLen isTerm rest with
    | some l => some (rest.take l)
    | none => none
  | m + 1 =>
    match lazyLen isTerm (rest.drop (m + 1)) with
    | some l => some ((rest.drop (m + 1)).take l)
    | none => wsBacktrack isTerm rest m

def sectCapture (isTerm : List Char → Bool) (rest : List Char) : Option (List Char) :=
  wsBacktrack isTerm rest (rest.takeWhile isPySpace).length

-- `re.search(lit + r'\s*(.+?)(?=TERM)', block, re.DOTALL)`.
def searchSect (lit : List Char) (isTerm : List Char → Bool) : List Char → Option (List Char)
  | [] => none
  | s@(_ :: tl) =>
    if List.isPrefixOf lit s then
      match sectCapture isTerm (s.drop lit.length) with
      | some cap => some cap
      | none => searchSect lit isTerm tl
    else searchSect lit isTerm tl

def labelsLit : List Char := "**Labels:**".toList

def descLit : List Char := "**Description:**".toList

def critLit : List Char := "**Acceptance Criteria:**".toList

def filesLit : List Char := "**Files to Modify:**".toList

-- Lookahead `(?=\*\*Acceptance|\*\*Files)` of the description pattern.
def isTermDesc (s : List Char) : Bool :=
  List.isPrefixOf "**Acceptance".toList s || List.isPrefixOf "**Files".toList s

-- Lookahead `(?=\*\*Files|\Z)` of the acceptance-criteria pattern.
def isTermCrit (s : List Char) : Bool :=
  List.isPrefixOf "**Files".toList s || s.isEmpty

-- Lookahead `(?=\n\n---|\Z)` of the files-to-modify pattern.
def isTermFiles (s : List Char) : Bool :=
  List.isPrefixOf "\n\n---".toList s || s.isEmpty

-- Python `str.split(',')`: splits at every comma, keeping empty pieces.
def splitComma : List Char → List (List Char)
  | [] => [[]]
  | c :: tl =>
    if c = ',' then [] :: splitComma tl
    else
      match splitComma tl with
      | [] => [[c]]
      | h :: t => (c :: h) :: t

-- One label token: `label.strip().replace(chr(96), '')` (96 is the backtick).
def cleanLabel (tok : List Char) : String :=
  ((pyStrip tok).filter (fun c => !(c.toNat = 96))).asString

-- `[label.strip().replace(chr(96), '') for label in labels_str.split(',')]`
-- applied to the already-stripped capture of the labels line.
def parseLabels (cap : List Char) : List String :=
  (splitComma (pyStrip cap)).map cleanLabel

-- The `issue` dictionary of `parse_issues_file`: each key may be absent.
structure IssueRec where
  title : Option String := none
  labels : Option (List String) := none
  body : Option String := none
deriving DecidableEq, Repr

def critHeader : List Char := "\n\n## Acceptance Criteria\n".toList

def filesHeader : List Char := "\n\n## Files to Modify\n".toList

-- `issue['body'] += header + section` when the section matched: raises
-- KeyError when `body` was never set, modelled as `Except.error`.
def appendSect (body : Option (List Char)) (found : Option (List Char))
    (header : List Char) : Except String (Option (List Char)) :=
  match found with
  | none => .ok body
  | some cap =>
    match body with
    | none => .error "KeyError: body"
    | some bd => .ok (some (bd ++ header ++ pyStrip cap))

-- The per-block body of the loop in `parse_issues_file`: skip blocks without
-- the `Issue #` marker, extract the four sections, and emit a record only
-- when a non-empty title was captured.
def parseBlock (b : List Char) : Except String (Option IssueRec) :=
  if hasSub "Issue #".toList b then
    match appendSect ((searchSect descLit isTermDesc b).map pyStrip)
        (searchSect critLit isTermCrit b) critHeader with
    | .error e => .error e
    | .ok body1 =>
      match appendSect body1 (searchSect filesLit isTermFiles b) filesHeader with
      | .error e => .error e
      | .ok body2 =>
        match (searchTitle b).map pyStrip with
        | some t =>
          if t.isEmpty then .ok none
          else .ok (some { title := some t.asString
                           , labels := (searchLine labelsLit b).map parseLabels
                           , body := body2.map List.asString })
        | none => .ok none
  else .ok none

-- Python `content.split('---')`: leftmost, non-overlapping.
def splitDashes : List Char → List (List Char)
  | [] => [[]]
  | '-' :: '-' :: '-' :: tl => [] :: splitDashes tl
  | c :: tl =>
    match splitDashes tl with
    | [] => [[c]]
    | h :: t => (c :: h) :: t

def parseBlocks : List (List Char) → Except String (List IssueRec)
  | [] => .ok []
  | b :: rest =>
    match parseBlock b with
    | .error e => .error e
    | .ok none => parseBlocks rest
    | .ok (some iss) =>
      match parseBlocks rest with
      | .error e => .error e
      | .ok l => .ok (iss :: l)

-- `parse_issues_file`, as a function of the text of `ISSUES.md`.
def parse_issues_file (content : String) : Except String (List IssueRec) :=
  parseBlocks (splitDashes content.toList)

-- Code-point lexicographic comparison of strings, the order `sorted` uses.
def charListLe : List Char → List Char → Bool
  | [], _ => true
  | _ :: _, [] => false
  | a :: as, b :: bs =>
    if a.toNat < b.toNat then true
    else if b.toNat < a.toNat then false
    else charListLe as bs

def strLe (a b : String) : Prop := charListLe a.toList b.toList = true

instance : DecidableRel strLe :=
  fun a b => inferInstanceAs (Decidable (charListLe a.toList b.toList = true))

-- `get_all_labels`: the set of labels across all records, listed in sorted
-- order (`sorted(labels)` in the source).
def get_all_labels (issues : List IssueRec) : List String :=
  List.insertionSort strLe ((issues.flatMap (fun i => i.labels.getD [])).dedup)

-- The `label_colors` lookup of `create_labels`, default `ededed`.
def label_colors (l : String) : String :=
  if l = "frontend" then "1d76db"
  else if l = "backend" then "0e8a16"
  else if l = "enhancement" then "a2eeef"
  else if l = "good first issue" then "7057ff"
  else if l = "easy" then "c5def5"
  else if l = "medium" then "fbca04"
  else if l = "hard" then "d93f0b"
  else if l = "bug" then "d73a4a"
  else if l = "documentation" then "0075ca"
  else "ededed"

-- Outcome of one `subprocess.run` of `gh issue create`: zero exit code,
-- nonzero exit code, or a raised exception (caught by the `except` arm).
inductive CallOutcome where
  | ok
  | err
  | exn
deriving DecidableEq, Repr

-- Observable steps of the script, in order of execution.
inductive Act where
  | parseFile
  | writeSnapshot (issues : List IssueRec)
  | versionCheck
  | authCheck
  | printText (s : String)
  | labelCreate (name : String) (color : String)
  | tmpCreate (i : Nat)
  | issueCreate (i : Nat) (title : String) (labels : List String)
  | tmpRemove (i : Nat)
deriving DecidableEq, Repr

def isTmpCreateA : Act → Bool
  | Act.tmpCreate _ => true
  | _ => false

def isTmpRemoveA : Act → Bool
  | Act.tmpRemove _ => true
  | _ => false

def isIssueCreateA : Act → Bool
  | Act.issueCreate _ _ _ => true
  | _ => false

-- `create_labels`: one `gh label create --force` attempt per label, in
-- order; failures only print and never stop the loop.
def create_labels (labels : List String) : List Act :=
  labels.map (fun l => Act.labelCreate l (label_colors l))

-- The loop of `create_issues_with_cli`, with `i` the 1-based index from
-- `enumerate(issues, 1)`.  Every iteration writes the body to a fresh temp
-- file, runs `gh issue create`, and unlinks the temp file in `finally`;
-- a nonzero exit or an exception counts as failed and the loop continues.
def createLoop (outcome : Nat → CallOutcome) : List IssueRec → Nat → (Nat × Nat) × List Act
  | [], _ => ((0, 0), [])
  | iss :: rest, i =>
    let title := iss.title.getD ("Issue #" ++ toString i)
    let acts := [Act.tmpCreate i,
                 Act.issueCreate i title (iss.labels.getD []),
                 Act.tmpRemove i]
    let r := createLoop outcome rest (i + 1)
    match outcome i with
    | CallOutcome.ok => ((r.1.1 + 1, r.1.2), acts ++ r.2)
    | CallOutcome.err => ((r.1.1, r.1.2 + 1), acts ++ r.2)
    | CallOutcome.exn => ((r.1.1, r.1.2 + 1), acts ++ r.2)

-- `create_issues_with_cli`: returns `(created, failed)` and the trace.
def create_issues_with_cli (issues : List IssueRec) (outcome : Nat → CallOutcome) :
    (Nat × Nat) × List Act :=
  createLoop outcome issues 1

-- The trace of `create_issues_with_cli` does not depend on the outcomes;
-- this is the shape it always has.
def expTrace : List IssueRec → Nat → List Act
  | [], _ => []
  | iss :: rest, i =>
    Act.tmpCreate i
      :: Act.issueCreate i (iss.title.getD ("Issue #" ++ toString i)) (iss.labels.getD [])
      :: Act.tmpRemove i
      :: expTrace rest (i + 1)

-- Environment of a run: whether `gh --version` succeeds, whether
-- `gh auth status` exits zero, and the per-issue creation outcomes.
structure Env where
  ghAvailable : Bool
  authenticated : Bool
  issueOutcome : Nat → CallOutcome

-- `main`: parse, write the JSON snapshot, preflight the CLI and auth
-- (returning early on failure), then create labels and issues.
def mainRun (content : String) (env : Env) : Except String (List Act) :=
  match parse_issues_file content with
  | .error e => .error e
  | .ok issues =>
    if env.ghAvailable then
      if env.authenticated then
        .ok ([Act.parseFile, Act.writeSnapshot issues,
              Act.versionCheck, Act.authCheck]
          ++ create_labels (get_all_labels issues)
          ++ (create_issues_with_cli issues env.issueOutcome).2
          ++ [Act.printText "Done"])
      else
        .ok [Act.parseFile, Act.writeSnapshot issues,
             Act.versionCheck, Act.authCheck,
             Act.printText "Not authenticated with GitHub CLI. Run: gh auth login"]
    else
      .ok [Act.parseFile, Act.writeSnapshot issues, Act.versionCheck,
           Act.printText "GitHub CLI (gh) is not installed or not in PATH."]

-- helper lemmas ---------------------------------------------------------

theorem issueTitleAt_pre {s r : List Char} (h : issueTitleAt s = some r) :
    List.isPrefixOf "Issue #".toList s = true := by
  unfold issueTitleAt at h
  split at h
  · assumption
  · simp at h

theorem hasSub_of_pre {p s : List Char} (h : List.isPrefixOf p s = true) :
    hasSub p s = true := by
  cases s with
  | nil =>
    cases p with
    | nil => rfl
    | cons a as => simp [List.isPrefixOf] at h
  | cons c tl => simp [hasSub, h]

theorem hasSub_cons {p : List Char} (c : Char) {tl : List Char} (h : hasSub p tl = true) :
    hasSub p (c :: tl) = true := by
  simp [hasSub, h]

theorem searchTitle_hasSub : ∀ {b cap : List Char}, searchTitle b = some cap →
    hasSub "Issue #".toList b = true := by
  intro b
  induction b with
  | nil => intro cap h; simp [searchTitle] at h
  | cons c tl ih =>
    intro cap h
    unfold searchTitle at h
    cases hI : issueTitleAt (c :: tl) with
    | some rest => exact hasSub_of_pre (issueTitleAt_pre hI)
    | none =>
      rw [hI] at h
      exact hasSub_cons c (ih h)

theorem preTrans : ∀ {p q b : List Char}, List.isPrefixOf p q = true →
    List.isPrefixOf q b = true → List.isPrefixOf p b = true := by
  intro p
  induction p with
  | nil => intro q b _ _; simp [List.isPrefixOf]
  | cons a as ih =>
    intro q b h1 h2
    cases q with
    | nil => simp [List.isPrefixOf] at h1
    | cons b0 qs =>
      cases b with
      | nil => simp [List.isPrefixOf] at h2
      | cons c bs =>
        simp only [List.isPrefixOf, Bool.and_eq_true, beq_iff_eq] at h1 h2 ⊢
        exact ⟨h1.1.trans h2.1, ih h1.2 h2.2⟩

theorem hasSub_mono {p q : List Char} (hpq : List.isPrefixOf p q = true) :
    ∀ {b : List Char}, hasSub q b = true → hasSub p b = true := by
  intro b
  induction b with
  | nil =>
    intro h
    cases q with
    | nil =>
      cases p with
      | nil => rfl
      | cons a as => simp [List.isPrefixOf] at hpq
    | cons c qs => simp [hasSub] at h
  | cons c tl ih =>
    intro h
    rcases Bool.or_eq_true_iff.mp h with h' | h'
    · exact hasSub_of_pre (preTrans hpq h')
    · exact hasSub_cons c (ih h')

theorem hasSub_drop {p : List Char} : ∀ {b : List Char} {n : Nat},
    List.isPrefixOf p (List.drop n b) = true → hasSub p b = true := by
  intro b
  induction b with
  | nil =>
    intro n h
    rw [List.drop_nil] at h
    cases p with
    | nil => rfl
    | cons a as => simp [List.isPrefixOf] at h
  | cons c tl ih =>
    intro n h
    cases n with
    | zero => exact hasSub_of_pre h
    | succ n => exact hasSub_cons c (ih (by simpa using h))

theorem lazyLen_term {isTerm : List Char → Bool} :
    ∀ {s : List Char} {l : Nat}, lazyLen isTerm s = some l → isTerm (s.drop l) = true := by
  intro s
  induction s with
  | nil => intro l h; simp [lazyLen] at h
  | cons c tl ih =>
    intro l h
    unfold lazyLen at h
    by_cases ht : isTerm tl = true
    · rw [if_pos ht] at h
      cases h
      simpa using ht
    · rw [if_neg ht] at h
      cases hl : lazyLen isTerm tl with
      | none => rw [hl] at h; simp at h
      | some l0 =>
        rw [hl] at h
        simp only [Option.map_some'] at h
        cases h
        simpa using ih hl

theorem wsBacktrack_term {isTerm : List Char → Bool} {rest cap : List Char} :
    ∀ {m : Nat}, wsBacktrack isTerm rest m = some cap →
    ∃ n, isTerm (rest.drop n) = true := by
  intro m
  induction m with
  | zero =>
    intro h
    unfold wsBacktrack at h
    cases hl : lazyLen isTerm rest with
    | none => rw [hl] at h; simp at h
    | some l => exact ⟨l, lazyLen_term hl⟩
  | succ m ih =>
    intro h
    unfold wsBacktrack at h
    cases hl : lazyLen isTerm (rest.drop (m + 1)) with
    | none =>
      rw [hl] at h
      exact ih h
    | some l =>
      refine ⟨(m + 1) + l, ?_⟩
      have := lazyLen_term hl
      rwa [List.drop_drop] at this

theorem searchSect_term {lit : List Char} {isTerm : List Char → Bool} :
    ∀ {b cap : List Char}, searchSect lit isTerm b = some cap →
    ∃ n, isTerm (List.drop n b) = true := by
  intro b
  induction b with
  | nil => intro cap h; simp [searchSect] at h
  | cons c tl ih =>
    intro cap h
    unfold searchSect at h
    by_cases hp : List.isPrefixOf lit (c :: tl) = true
    · rw [if_pos hp] at h
      cases hS : sectCapture isTerm ((c :: tl).drop lit.length) with
      | none =>
        rw [hS] at h
        rcases ih h with ⟨n, hn⟩
        exact ⟨n + 1, by simpa using hn⟩
      | some cap' =>
        rcases wsBacktrack_term hS with ⟨n, hn⟩
        refine ⟨lit.length + n, ?_⟩
        rwa [List.drop_drop] at hn
    · rw [if_neg hp] at h
      rcases ih h with ⟨n, hn⟩
      exact ⟨n + 1, by simpa using hn⟩

theorem searchSect_lit {lit : List Char} {isTerm : List Char → Bool} :
    ∀ {b cap : List Char}, searchSect lit isTerm b = some cap →
    hasSub lit b = true := by
  intro b
  induction b with
  | nil => intro cap h; simp [searchSect] at h
  | cons c tl ih =>
    intro cap h
    unfold searchSect at h
    by_cases hp : List.isPrefixOf lit (c :: tl) = true
    · exact hasSub_of_pre hp
    · rw [if_neg hp] at h
      exact hasSub_cons c (ih h)

theorem parseBlock_eval {b cap : List Char} {body1 body2 : Option (List Char)}
    (ht : searchTitle b = some cap) (hne : (pyStrip cap).isEmpty = false)
    (h1 : appendSect ((searchSect descLit isTermDesc b).map pyStrip)
        (searchSect critLit isTermCrit b) critHeader = .ok body1)
    (h2 : appendSect body1 (searchSect filesLit isTermFiles b) filesHeader = .ok body2) :
    parseBlock b = .ok (some { title := some (pyStrip cap).asString
                               , labels := (searchLine labelsLit b).map parseLabels
                               , body := body2.map List.asString }) := by
  have hin : hasSub "Issue #".toList b = true := searchTitle_hasSub ht
  unfold parseBlock
  rw [hin, if_pos rfl, h1]
  dsimp only
  rw [h2]
  dsimp only
  rw [ht]
  dsimp only [Option.map_some']
  rw [if_neg (by simp [hne])]

theorem parseBlock_ok_some {b : List Char} {iss : IssueRec}
    (h : parseBlock b = .ok (some iss)) :
    ∃ cap, searchTitle b = some cap ∧ (pyStrip cap).isEmpty = false ∧
      iss.title = some (pyStrip cap).asString ∧
      iss.labels = (searchLine labelsLit b).map parseLabels := by
  unfold parseBlock at h
  split at h
  · split at h
    · simp at h
    · split at h
      · simp at h
      · split at h
        · rename_i t heq
          split at h
          · simp at h
          · rename_i hne
            rcases Option.map_eq_some'.mp heq with ⟨cap, hcap, hcapt⟩
            refine ⟨cap, hcap, ?_, ?_, ?_⟩
            · rw [hcapt]; simpa using hne
            · rw [hcapt]
              simpa using (congrArg IssueRec.title (Option.some.inj (Except.ok.inj h))).symm
            · simpa using (congrArg IssueRec.labels (Option.some.inj (Except.ok.inj h))).symm
        · simp at h
  · simp at h

theorem asString_ne_nil {l : List Char} (h : l.isEmpty = false) : l.asString ≠ "" := by
  intro hc
  have hl : l = [] := congrArg String.data hc
  rw [hl] at h
  simp at h

theorem parseBlock_title_nonempty {b : List Char} {iss : IssueRec}
    (h : parseBlock b = .ok (some iss)) :
    ∃ t : String, iss.title = some t ∧ t ≠ "" := by
  rcases parseBlock_ok_some h with ⟨cap, _, hne, htitle, _⟩
  exact ⟨(pyStrip cap).asString, htitle, asString_ne_nil hne⟩

theorem parseBlocks_titles : ∀ {bs : List (List Char)} {issues : List IssueRec},
    parseBlocks bs = .ok issues → ∀ iss ∈ issues, ∃ t : String, iss.title = some t ∧ t ≠ "" := by
  intro bs
  induction bs with
  | nil =>
    intro issues h iss hm
    simp only [parseBlocks] at h
    cases h
    simp at hm
  | cons b rest ih =>
    intro issues h iss hm
    unfold parseBlocks at h
    cases hb : parseBlock b with
    | error e => rw [hb] at h; simp at h
    | ok o =>
      rw [hb] at h
      cases o with
      | none => exact ih h iss hm
      | some rec0 =>
        cases hr : parseBlocks rest with
        | error e => rw [hr] at h; simp at h
        | ok l =>
          rw [hr] at h
          have hi : rec0 :: l = issues := Except.ok.inj h
          rw [← hi] at hm
          rcases List.mem_cons.mp hm with hm' | hm'
          · rw [hm']
            exact parseBlock_title_nonempty hb
          · exact ih hr iss hm'

/-- C1: the spec requires that a block whose description section is absent but
whose acceptance-criteria (or files-to-modify) section is present still parses,
the body starting from an empty fragment.  The code instead executes
`issue['body'] += ...` with the `body` key never set, which raises `KeyError`
and aborts the whole parse; the embedding returns `Except.error` there. -/
theorem c1_missing_description_keyerror :
    parse_issues_file "Issue #1: Title\n**Acceptance Criteria:** All tests pass"
      = .error "KeyError: body" := rfl

/-- C2: when a block has a description, an acceptance-criteria section and a
files-to-modify section, the assembled body is the trimmed description, then
the synthesized acceptance-criteria heading and trimmed criteria, then the
synthesized files-to-modify heading and trimmed files text. -/
theorem c2_body_assembly (b t d c f : List Char)
    (ht : searchTitle b = some t) (hne : (pyStrip t).isEmpty = false)
    (hd : searchSect descLit isTermDesc b = some d)
    (hc : searchSect critLit isTermCrit b = some c)
    (hf : searchSect filesLit isTermFiles b = some f) :
    ∃ iss : IssueRec, parseBlock b = .ok (some iss)
      ∧ iss.title = some (pyStrip t).asString
      ∧ iss.body = some (pyStrip d ++ critHeader ++ pyStrip c
          ++ filesHeader ++ pyStrip f).asString := by
  refine ⟨_, @parseBlock_eval b t (some (pyStrip d ++ critHeader ++ pyStrip c))
      (some (pyStrip d ++ critHeader ++ pyStrip c ++ filesHeader ++ pyStrip f))
      ht hne ?_ ?_, rfl, rfl⟩
  · rw [hd, hc]; rfl
  · rw [hf]
    simp [appendSect, List.append_assoc]

/-- C2 witness: the concrete example from the spec, computed end to end. -/
theorem c2_witness : ∃ iss : IssueRec,
    parseBlock ("Issue #1: Fix login\n**Description:** Fix the bug\n**Acceptance Criteria:** All tests pass\n**Files to Modify:** src/app.py\n".toList)
      = .ok (some iss)
    ∧ iss.body = some "Fix the bug\n\n## Acceptance Criteria\nAll tests pass\n\n## Files to Modify\nsrc/app.py" := by
  obtain ⟨iss, h1, _, h3⟩ := c2_body_assembly
    ("Issue #1: Fix login\n**Description:** Fix the bug\n**Acceptance Criteria:** All tests pass\n**Files to Modify:** src/app.py\n".toList)
    ("Fix login".toList) ("Fix the bug\n".toList) ("All tests pass\n".toList)
    ("src/app.py\n".toList) rfl rfl rfl rfl rfl
  refine ⟨iss, h1, ?_⟩
  rw [h3]
  rfl

/-- C3: a block in which the title pattern finds no match never contributes a
record (the parse of that block yields no record, or aborts with the KeyError
of C1), and every record that is emitted — per block and over a whole
document — carries a non-empty extracted title. -/
theorem c3_title_gate (b : List Char) :
    (searchTitle b = none → parseBlock b = .ok none ∨ ∃ e, parseBlock b = .error e)
    ∧ (∀ iss : IssueRec, parseBlock b = .ok (some iss) →
        ∃ t : String, iss.title = some t ∧ t ≠ "")
    ∧ (∀ (content : String) (issues : List IssueRec),
        parse_issues_file content = .ok issues →
        ∀ iss ∈ issues, ∃ t : String, iss.title = some t ∧ t ≠ "") := by
  refine ⟨?_, fun iss h => parseBlock_title_nonempty h,
    fun content issues h => parseBlocks_titles h⟩
  intro hT
  unfold parseBlock
  by_cases hin : hasSub "Issue #".toList b = true
  · rw [hin, if_pos rfl]
    cases h1 : appendSect ((searchSect descLit isTermDesc b).map pyStrip)
        (searchSect critLit isTermCrit b) critHeader with
    | error e => exact Or.inr ⟨e, rfl⟩
    | ok body1 =>
      dsimp only
      cases h2 : appendSect body1 (searchSect filesLit isTermFiles b) filesHeader with
      | error e => exact Or.inr ⟨e, rfl⟩
      | ok body2 =>
        dsimp only
        rw [hT]
        exact Or.inl rfl
  · rw [if_neg hin]
    exact Or.inl rfl

/-- C3 witness: a block containing `Issue #` but no well-formed title line. -/
theorem c3_witness :
    parseBlock ("Issue #x nothing".toList) = .ok none
      ∨ ∃ e, parseBlock ("Issue #x nothing".toList) = .error e :=
  (c3_title_gate ("Issue #x nothing".toList)).1 rfl

/-- C4: a block whose title pattern matches with a non-empty trimmed capture,
and which does not hit the uninitialised-body KeyError of C1, produces exactly
one record, whose title is the captured text trimmed. -/
theorem c4_title_extraction (b cap : List Char)
    (ht : searchTitle b = some cap) (hne : (pyStrip cap).isEmpty = false)
    (hsafe : searchSect descLit isTermDesc b = none →
      searchSect critLit isTermCrit b = none ∧ searchSect filesLit isTermFiles b = none) :
    ∃ iss : IssueRec, parseBlock b = .ok (some iss)
      ∧ iss.title = some (pyStrip cap).asString := by
  cases hd : searchSect descLit isTermDesc b with
  | none =>
    obtain ⟨hc, hf⟩ := hsafe hd
    exact ⟨_, @parseBlock_eval b cap none none ht hne
      (by rw [hd, hc]; rfl) (by rw [hf]; rfl), rfl⟩
  | some d =>
    cases hc : searchSect critLit isTermCrit b with
    | none =>
      cases hf : searchSect filesLit isTermFiles b with
      | none =>
        exact ⟨_, @parseBlock_eval b cap (some (pyStrip d)) (some (pyStrip d)) ht hne
          (by rw [hd, hc]; rfl) (by rw [hf]; rfl), rfl⟩
      | some f =>
        exact ⟨_, @parseBlock_eval b cap (some (pyStrip d))
          (some (pyStrip d ++ filesHeader ++ pyStrip f)) ht hne
          (by rw [hd, hc]; rfl) (by rw [hf]; rfl), rfl⟩
    | some c =>
      cases hf : searchSect filesLit isTermFiles b with
      | none =>
        exact ⟨_, @parseBlock_eval b cap (some (pyStrip d ++ critHeader ++ pyStrip c))
          (some (pyStrip d ++ critHeader ++ pyStrip c)) ht hne
          (by rw [hd, hc]; rfl) (by rw [hf]; rfl), rfl⟩
      | some f =>
        exact ⟨_, @parseBlock_eval b cap (some (pyStrip d ++ critHeader ++ pyStrip c))
          (some ((pyStrip d ++ critHeader ++ pyStrip c) ++ filesHeader ++ pyStrip f)) ht hne
          (by rw [hd, hc]; rfl) (by rw [hf]; rfl), rfl⟩

/-- C4 witness: a title line with surrounding whitespace around the capture. -/
theorem c4_witness : ∃ iss : IssueRec,
    parseBlock ("Issue #7:   My Title  \nmore".toList) = .ok (some iss)
    ∧ iss.title = some "My Title" := by
  obtain ⟨iss, h1, h2⟩ := c4_title_extraction ("Issue #7:   My Title  \nmore".toList)
    ("My Title  ".toList) rfl rfl (fun _ => ⟨rfl, rfl⟩)
  refine ⟨iss, h1, ?_⟩
  rw [h2]
  rfl

/-- C5: when the labels line matches, the record labels are the comma-split
tokens of the captured remainder, each stripped of whitespace and with all
backtick characters removed, in source order. -/
theorem c5_label_extraction (b cap : List Char) (iss : IssueRec)
    (hrec : parseBlock b = .ok (some iss)) (hl : searchLine labelsLit b = some cap) :
    iss.labels = some ((splitComma (pyStrip cap)).map cleanLabel) := by
  rcases parseBlock_ok_some hrec with ⟨_, _, _, _, hlab⟩
  rw [hlab, hl]
  rfl

/-- C5 witness: the spec example, computed end to end through the parser. -/
theorem c5_witness : ∃ iss : IssueRec,
    parseBlock ("Issue #3: T\n**Labels:** `frontend`,  bug \n".toList) = .ok (some iss)
    ∧ iss.labels = some ["frontend", "bug"] := by
  have h0 : parseBlock ("Issue #3: T\n**Labels:** `frontend`,  bug \n".toList)
      = .ok (some { title := some "T", labels := some ["frontend", "bug"], body := none }) := rfl
  refine ⟨_, h0, ?_⟩
  have h1 := c5_label_extraction ("Issue #3: T\n**Labels:** `frontend`,  bug \n".toList)
    ("`frontend`,  bug ".toList) _ h0 rfl
  rw [h1]
  rfl

/-- C10: when the block contains a description marker but no later
`**Acceptance` or `**Files` marker anywhere, the description pattern cannot
match (its lookahead never fires), and the emitted record has no body field at
all, despite the description text being present. -/
theorem c10_dangling_description (b cap : List Char)
    (ht : searchTitle b = some cap) (hne : (pyStrip cap).isEmpty = false)
    (_hdesc : hasSub descLit b = true)
    (hA : hasSub "**Acceptance".toList b = false)
    (hF : hasSub "**Files".toList b = false) :
    searchSect descLit isTermDesc b = none
      ∧ ∃ iss : IssueRec, parseBlock b = .ok (some iss) ∧ iss.body = none := by
  have hd : searchSect descLit isTermDesc b = none := by
    cases hd : searchSect descLit isTermDesc b with
    | none => rfl
    | some d =>
      exfalso
      rcases searchSect_term hd with ⟨n, hn⟩
      rcases Bool.or_eq_true_iff.mp hn with h' | h'
      · have hx := hasSub_drop h'
        rw [hA] at hx
        exact Bool.false_ne_true hx
      · have hx := hasSub_drop h'
        rw [hF] at hx
        exact Bool.false_ne_true hx
  have hc : searchSect critLit isTermCrit b = none := by
    cases hc : searchSect critLit isTermCrit b with
    | none => rfl
    | some c =>
      exfalso
      have hs := searchSect_lit hc
      have hx := @hasSub_mono ("**Acceptance".toList) critLit (by decide) b hs
      rw [hA] at hx
      exact Bool.false_ne_true hx
  have hf : searchSect filesLit isTermFiles b = none := by
    cases hf : searchSect filesLit isTermFiles b with
    | none => rfl
    | some f =>
      exfalso
      have hs := searchSect_lit hf
      have hx := @hasSub_mono ("**Files".toList) filesLit (by decide) b hs
      rw [hF] at hx
      exact Bool.false_ne_true hx
  exact ⟨hd, _, @parseBlock_eval b cap none none ht hne
    (by rw [hd, hc]; rfl) (by rw [hf]; rfl), rfl⟩

/-- C10 witness: a block whose description is its last section. -/
theorem c10_witness :
    searchSect descLit isTermDesc ("Issue #2: T\n**Description:** some text\n".toList) = none
      ∧ ∃ iss : IssueRec,
        parseBlock ("Issue #2: T\n**Description:** some text\n".toList) = .ok (some iss)
        ∧ iss.body = none :=
  c10_dangling_description ("Issue #2: T\n**Description:** some text\n".toList)
    ("T".toList) rfl rfl rfl rfl rfl

theorem charListLe_total : ∀ (x y : List Char),
    charListLe x y = true ∨ charListLe y x = true := by
  intro x
  induction x with
  | nil => intro y; left; rfl
  | cons a as ih =>
    intro y
    cases y with
    | nil => right; rfl
    | cons b bs =>
      by_cases hab : a.toNat < b.toNat
      · left; simp [charListLe, hab]
      · by_cases hba : b.toNat < a.toNat
        · right; simp [charListLe, hba]
        · rcases ih bs with h | h
          · left; simp [charListLe, hab, hba, h]
          · right; simp [charListLe, hab, hba, h]

theorem charListLe_trans : ∀ (x y z : List Char), charListLe x y = true →
    charListLe y z = true → charListLe x z = true := by
  intro x
  induction x with
  | nil => intro y z _ _; rfl
  | cons a as ih =>
    intro y z hxy hyz
    cases y with
    | nil => simp [charListLe] at hxy
    | cons b bs =>
      cases z with
      | nil => simp [charListLe] at hyz
      | cons c cs =>
        by_cases hab : a.toNat < b.toNat
        · by_cases hbc : b.toNat < c.toNat
          · simp [charListLe, show a.toNat < c.toNat by omega]
          · by_cases hcb : c.toNat < b.toNat
            · simp [charListLe, hbc, hcb] at hyz
            · simp [charListLe, show a.toNat < c.toNat by omega]
        · by_cases hba : b.toNat < a.toNat
          · simp [charListLe, hab, hba] at hxy
          · by_cases hbc : b.toNat < c.toNat
            · simp [charListLe, show a.toNat < c.toNat by omega]
            · by_cases hcb : c.toNat < b.toNat
              · simp [charListLe, hbc, hcb] at hyz
              · have h1 : charListLe as bs = true := by simpa [charListLe, hab, hba] using hxy
                have h2 : charListLe bs cs = true := by simpa [charListLe, hbc, hcb] using hyz
                have hac : ¬ a.toNat < c.toNat := by omega
                have hca : ¬ c.toNat < a.toNat := by omega
                simp [charListLe, hac, hca, ih bs cs h1 h2]

theorem charListLe_lex : ∀ (x y : List Char), charListLe x y = true →
    List.Lex (· < ·) x y ∨ x = y := by
  intro x
  induction x with
  | nil =>
    intro y _
    cases y with
    | nil => right; rfl
    | cons b bs => left; exact List.Lex.nil
  | cons a as ih =>
    intro y h
    cases y with
    | nil => simp [charListLe] at h
    | cons b bs =>
      by_cases hab : a.toNat < b.toNat
      · left; exact List.Lex.rel hab
      · by_cases hba : b.toNat < a.toNat
        · simp [charListLe, hab, hba] at h
        · have hn : a.toNat = b.toNat := by omega
          have hEq : a = b := Char.ext (UInt32.ext hn)
          have h' : charListLe as bs = true := by simpa [charListLe, hab, hba] using h
          subst hEq
          rcases ih bs h' with hl | he
          · left; exact List.Lex.cons hl
          · right; rw [he]

theorem charListLe_le {x y : List Char} (h : charListLe x y = true) : x ≤ y := by
  rcases charListLe_lex x y h with hl | he
  · exact le_of_lt hl
  · exact le_of_eq he

theorem strLe_le {a b : String} (h : strLe a b) : a ≤ b :=
  String.le_iff_toList_le.mpr (charListLe_le h)

/-- C6: `get_all_labels` lists the union of all records' labels without
duplicates, sorted lexicographically by code point (the order Python's
`sorted` uses on strings); on records with label sets `a, b` and `b, c` it
returns `[a, b, c]`. -/
theorem c6_get_all_labels (issues : List IssueRec) :
    List.Sorted (· ≤ ·) (get_all_labels issues)
    ∧ (get_all_labels issues).Nodup
    ∧ (∀ x : String, x ∈ get_all_labels issues ↔ ∃ i ∈ issues, x ∈ i.labels.getD [])
    ∧ get_all_labels [{ title := some "t1", labels := some ["a", "b"], body := none },
        { title := some "t2", labels := some ["b", "c"], body := none }]
      = ["a", "b", "c"] := by
  haveI : IsTotal String strLe := ⟨fun a b => charListLe_total a.toList b.toList⟩
  haveI : IsTrans String strLe := ⟨fun a b c => charListLe_trans a.toList b.toList c.toList⟩
  refine ⟨?_, ?_, ?_, rfl⟩
  · exact (List.sorted_insertionSort strLe
      ((issues.flatMap (fun i => i.labels.getD [])).dedup)).imp (fun h => strLe_le h)
  · exact ((List.perm_insertionSort strLe _).nodup_iff).mpr (List.nodup_dedup _)
  · intro x
    unfold get_all_labels
    rw [(List.perm_insertionSort strLe _).mem_iff, List.mem_dedup, List.mem_flatMap]

/-- C6 witness: the spec example, extracted from the theorem. -/
theorem c6_witness :
    get_all_labels [{ title := some "t1", labels := some ["a", "b"], body := none },
      { title := some "t2", labels := some ["b", "c"], body := none }]
    = ["a", "b", "c"] :=
  (c6_get_all_labels []).2.2.2

theorem createLoop_trace (outcome : Nat → CallOutcome) : ∀ (issues : List IssueRec) (s : Nat),
    (createLoop outcome issues s).2 = expTrace issues s := by
  intro issues
  induction issues with
  | nil => intro s; rfl
  | cons iss rest ih =>
    intro s
    unfold createLoop expTrace
    cases outcome s <;> simp [ih]

theorem createLoop_counts (outcome : Nat → CallOutcome) : ∀ (issues : List IssueRec) (s : Nat),
    (createLoop outcome issues s).1.1
      = ((List.range' s issues.length).filter (fun j => outcome j == CallOutcome.ok)).length
    ∧ (createLoop outcome issues s).1.2
      = ((List.range' s issues.length).filter (fun j => !(outcome j == CallOutcome.ok))).length
    ∧ (createLoop outcome issues s).1.1 + (createLoop outcome issues s).1.2
      = issues.length := by
  intro issues
  induction issues with
  | nil => intro s; exact ⟨rfl, rfl, rfl⟩
  | cons iss rest ih =>
    intro s
    obtain ⟨h1, h2, h3⟩ := ih (s + 1)
    unfold createLoop
    cases ho : outcome s <;>
      simp [List.range'_succ, ho, h1, h2, h3] <;> omega

theorem expTrace_issueCreate_count : ∀ (issues : List IssueRec) (s : Nat),
    ((expTrace issues s).filter isIssueCreateA).length = issues.length := by
  intro issues
  induction issues with
  | nil => intro s; rfl
  | cons iss rest ih =>
    intro s
    simp [expTrace, isIssueCreateA, ih]

theorem expTrace_tmp_counts : ∀ (issues : List IssueRec) (s : Nat),
    ((expTrace issues s).filter isTmpCreateA).length = issues.length
    ∧ ((expTrace issues s).filter isTmpRemoveA).length = issues.length := by
  intro issues
  induction issues with
  | nil => intro s; exact ⟨rfl, rfl⟩
  | cons iss rest ih =>
    intro s
    obtain ⟨h1, h2⟩ := ih (s + 1)
    constructor
    · simp [expTrace, isTmpCreateA, isTmpRemoveA, isIssueCreateA, h1]
    · simp [expTrace, isTmpCreateA, isTmpRemoveA, isIssueCreateA, h2]

theorem expTrace_decomp : ∀ (issues : List IssueRec) (s i : Nat),
    Act.tmpCreate i ∈ expTrace issues s →
    ∃ pre t ls post, expTrace issues s
      = pre ++ Act.tmpCreate i :: Act.issueCreate i t ls :: Act.tmpRemove i :: post := by
  intro issues
  induction issues with
  | nil => intro s i h; simp [expTrace] at h
  | cons iss rest ih =>
    intro s i h
    unfold expTrace at h
    rcases List.mem_cons.mp h with he | h2
    · injection he with hi
      subst hi
      exact ⟨[], _, _, _, rfl⟩
    · rcases List.mem_cons.mp h2 with he2 | h3
      · simp at he2
      · rcases List.mem_cons.mp h3 with he3 | h4
        · simp at he3
        · rcases ih (s + 1) i h4 with ⟨pre, t, ls, post, hp⟩
          refine ⟨Act.tmpCreate s
            :: Act.issueCreate s (iss.title.getD ("Issue #" ++ toString s)) (iss.labels.getD [])
            :: Act.tmpRemove s :: pre, t, ls, post, ?_⟩
          simp [expTrace, hp]

/-- C7: every record gets exactly one `gh issue create` attempt (one creation
call per record appears in the trace, whatever the outcomes are); the
returned counts are the number of calls that exited zero and the number that
failed or raised, summing to the number of records; and with three records
whose second call fails the counts are `(2, 1)`. -/
theorem c7_publisher_resilience (issues : List IssueRec) (outcome : Nat → CallOutcome) :
    ((create_issues_with_cli issues outcome).2.filter isIssueCreateA).length = issues.length
    ∧ (create_issues_with_cli issues outcome).1.1
        = ((List.range' 1 issues.length).filter (fun j => outcome j == CallOutcome.ok)).length
    ∧ (create_issues_with_cli issues outcome).1.2
        = ((List.range' 1 issues.length).filter (fun j => !(outcome j == CallOutcome.ok))).length
    ∧ (create_issues_with_cli issues outcome).1.1 + (create_issues_with_cli issues outcome).1.2
        = issues.length
    ∧ (create_issues_with_cli
        [{ title := some "A", labels := none, body := none },
         { title := some "B", labels := none, body := none },
         { title := some "C", labels := none, body := none }]
        (fun i => if i = 2 then CallOutcome.err else CallOutcome.ok)).1 = (2, 1) := by
  obtain ⟨h1, h2, h3⟩ := createLoop_counts outcome issues 1
  refine ⟨?_, h1, h2, h3, rfl⟩
  have htr : (create_issues_with_cli issues outcome).2 = expTrace issues 1 :=
    createLoop_trace outcome issues 1
  rw [htr, expTrace_issueCreate_count issues 1]

/-- C9: in every run, each temp body file is created immediately before its
issue-creation call and removed immediately after it; the trace is identical
whatever the call outcomes (so the removal also happens on failures and on
exceptions), and creations and removals balance, so no temp file is left. -/
theorem c9_temp_file_lifecycle (issues : List IssueRec) (outcome : Nat → CallOutcome) (i : Nat)
    (h : Act.tmpCreate i ∈ (create_issues_with_cli issues outcome).2) :
    (∃ pre t ls post, (create_issues_with_cli issues outcome).2
        = pre ++ Act.tmpCreate i :: Act.issueCreate i t ls :: Act.tmpRemove i :: post)
    ∧ Act.tmpRemove i ∈ (create_issues_with_cli issues outcome).2
    ∧ ((create_issues_with_cli issues outcome).2.filter isTmpCreateA).length
        = ((create_issues_with_cli issues outcome).2.filter isTmpRemoveA).length
    ∧ (create_issues_with_cli issues outcome).2
        = (create_issues_with_cli issues (fun _ => CallOutcome.ok)).2 := by
  have htr : (create_issues_with_cli issues outcome).2 = expTrace issues 1 :=
    createLoop_trace outcome issues 1
  have htr2 : (create_issues_with_cli issues (fun _ => CallOutcome.ok)).2 = expTrace issues 1 :=
    createLoop_trace (fun _ => CallOutcome.ok) issues 1
  rw [htr] at h ⊢
  rw [htr2]
  rcases expTrace_decomp issues 1 i h with ⟨pre, t, ls, post, hp⟩
  obtain ⟨hc1, hc2⟩ := expTrace_tmp_counts issues 1
  refine ⟨⟨pre, t, ls, post, hp⟩, ?_, by rw [hc1, hc2], rfl⟩
  rw [hp]
  simp

/-- C9 witness: a single record whose call raises an exception; the temp file
removal action is still present in the trace. -/
theorem c9_witness :
    Act.tmpRemove 1 ∈ (create_issues_with_cli
      [{ title := some "A", labels := none, body := none }]
      (fun _ => CallOutcome.exn)).2 :=
  (c9_temp_file_lifecycle [{ title := some "A", labels := none, body := none }]
    (fun _ => CallOutcome.exn) 1 (by decide)).2.1

/-- C8: when the CLI is unavailable or the user is unauthenticated, the run
returns after the preflight checks: the trace starts with parsing, contains
the snapshot write and a remediation message, and contains no label creation,
no issue creation and no temp file creation. -/
theorem c8_preflight_stops_run (content : String) (env : Env) (issues : List IssueRec)
    (hp : parse_issues_file content = .ok issues)
    (henv : env.ghAvailable = false ∨ env.authenticated = false) :
    ∃ acts : List Act, mainRun content env = .ok acts
      ∧ (∀ a ∈ acts, (∀ n c, a ≠ Act.labelCreate n c)
          ∧ (∀ i t ls, a ≠ Act.issueCreate i t ls)
          ∧ (∀ i, a ≠ Act.tmpCreate i))
      ∧ acts.head? = some Act.parseFile
      ∧ Act.writeSnapshot issues ∈ acts
      ∧ ∃ m, Act.printText m ∈ acts := by
  unfold mainRun
  rw [hp]
  dsimp only
  rcases henv with hg | ha
  · rw [hg, if_neg Bool.false_ne_true]
    refine ⟨_, rfl, ?_, rfl, by simp,
      ⟨"GitHub CLI (gh) is not installed or not in PATH.", by simp⟩⟩
    intro a ha'
    fin_cases ha' <;>
      exact ⟨fun n c => by simp, fun j t ls => by simp, fun j => by simp⟩
  · cases hg : env.ghAvailable with
    | false =>
      rw [if_neg Bool.false_ne_true]
      refine ⟨_, rfl, ?_, rfl, by simp,
        ⟨"GitHub CLI (gh) is not installed or not in PATH.", by simp⟩⟩
      intro a ha'
      fin_cases ha' <;>
        exact ⟨fun n c => by simp, fun j t ls => by simp, fun j => by simp⟩
    | true =>
      rw [if_pos rfl, ha, if_neg Bool.false_ne_true]
      refine ⟨_, rfl, ?_, rfl, by simp,
        ⟨"Not authenticated with GitHub CLI. Run: gh auth login", by simp⟩⟩
      intro a ha'
      fin_cases ha' <;>
        exact ⟨fun n c => by simp, fun j t ls => by simp, fun j => by simp⟩

/-- C8 witness: an empty document and an environment without the CLI. -/
theorem c8_witness : ∃ acts : List Act,
    mainRun "" ⟨false, false, fun _ => CallOutcome.ok⟩ = .ok acts
      ∧ (∀ a ∈ acts, (∀ n c, a ≠ Act.labelCreate n c)
          ∧ (∀ i t ls, a ≠ Act.issueCreate i t ls)
          ∧ (∀ i, a ≠ Act.tmpCreate i))
      ∧ acts.head? = some Act.parseFile
      ∧ Act.writeSnapshot [] ∈ acts
      ∧ ∃ m, Act.printText m ∈ acts :=
  c8_preflight_stops_run "" ⟨false, false, fun _ => CallOutcome.ok⟩ [] rfl (Or.inl rfl)
